import Mathlib

/-!
Shallow embedding of the core image model of SuperFamiconv (`src/Image.cpp`).

Bitmaps own a flat 8-bit RGBA byte buffer (`data`, row-major, 4 bytes per
pixel in R,G,B,A order), an optional parallel palette-index buffer
(`indexed_data`, empty = absent) and an optional palette of packed 32-bit
RGBA colors.  Machine `unsigned` values are modelled as `Nat`; none of the
verified claims concerns buffers anywhere near the 2^32-byte regime where
unsigned wraparound in the C++ could be observed, so overflow does not
matter for these statements.

External collaborators (the lodepng codec, the `Palette`/`Subpalette` color
model with `reduce_color` / `normalize_color` / `rgba_color`, and the
declarations of `Image.h` / `Common.h` that are not part of `src/`) are
modelled from the specification where noted, or taken as function
parameters.
-/

namespace sfc

/-- Modelled from the spec: the distinguished transparent sentinel color
(`transparent_color` in `Common.h`, not under `src/`): a packed RGBA value
with zero alpha and RGB fixed to 0, i.e. the packed value 0. -/
def transparent_color : Nat := 0

/-- Error kinds raised by the image core (`std::runtime_error` messages in the
C++ source: "No colors", "Color not in palette", "No indexed data in image"). -/
inductive SfcError where
  | noColors : SfcError
  | colorNotInPalette : SfcError
  | noIndexedData : SfcError
deriving Repr, DecidableEq

/-- In-memory bitmap: `_width`, `_height`, `_data` (channel bytes), `_indexed_data`
and `_palette` of `Image.h`, with `std::vector` buffers as lists of `Nat`. -/
structure Image where
  width : Nat
  height : Nat
  data : List Nat
  indexed_data : List Nat
  palette : List Nat
deriving Repr, DecidableEq

/-- Channel byte `b` (0 = R, 1 = G, 2 = B, 3 = A) of a packed RGBA color:
`(color >> (8*b)) & 0xff` in the C++ source. -/
def channelByte (color b : Nat) : Nat := color / 2 ^ (8 * b) % 2 ^ 8

/-- Four stores `_data[offset + 0] = color & 0xff; ... _data[offset + 3] =
(color >> 24) & 0xff` shared by the bodies of both `set_pixel` overloads. -/
def writeColorBytes (d : List Nat) (offset color : Nat) : List Nat :=
  ((((d.set offset (channelByte color 0)).set (offset + 1) (channelByte color 1)).set
      (offset + 2) (channelByte color 2)).set (offset + 3) (channelByte color 3))

/-- Translation of `Image::set_pixel(const rgba_t color, const unsigned index)`
(`Image.cpp` lines 211-218): compute `offset = index * 4`, silently return if
`offset + 3 > _data.size()`, else store the four channel bytes. -/
def Image.set_pixel_at (img : Image) (color index : Nat) : Image :=
  let offset := index * 4
  if offset + 3 > img.data.length then img
  else { img with data := writeColorBytes img.data offset color }

/-- Translation of `Image::set_pixel(const rgba_t color, const unsigned x, const
unsigned y)` (`Image.cpp` lines 220-227): compute `offset = ((y * _width) + x) * 4`,
silently return if `offset + 3 > _data.size()`, else store the channel bytes. -/
def Image.set_pixel_xy (img : Image) (color x y : Nat) : Image :=
  let offset := (y * img.width + x) * 4
  if offset + 3 > img.data.length then img
  else { img with data := writeColorBytes img.data offset color }

/-- Translation of `Image::blit` (`Image.cpp` lines 229-231): for each linear
position `i` of the source RGBA buffer, `set_pixel(rgba_data[i], (i % width) + x,
(i / width) + y)`. -/
def Image.blit (img : Image) (rgba_data : List Nat) (x y width : Nat) : Image :=
  (List.range rgba_data.length).foldl
    (fun acc i => acc.set_pixel_xy (rgba_data.getD i 0) (i % width + x) (i / width + y)) img

/-- Modelled from the spec: `sfc::rgba_color_at` of `Image.h` reads the pixel at
linear index `i` from the canonical byte buffer as a packed value
`R | G<<8 | B<<16 | A<<24`. -/
def Image.rgba_color_at (img : Image) (i : Nat) : Nat :=
  img.data.getD (i * 4) 0 + img.data.getD (i * 4 + 1) 0 * 2 ^ 8 +
    img.data.getD (i * 4 + 2) 0 * 2 ^ 16 + img.data.getD (i * 4 + 3) 0 * 2 ^ 24

/-- Modelled from the spec: `sfc::to_rgba` of `Common.h` regroups a flat channel
byte buffer into packed `R | G<<8 | B<<16 | A<<24` colors, four bytes per pixel. -/
def to_rgba : List Nat → List Nat
  | r :: g :: b :: a :: rest => (r + g * 2 ^ 8 + b * 2 ^ 16 + a * 2 ^ 24) :: to_rgba rest
  | _ => []

/-- Translation of `Image::rgba_data()` (`Image.cpp` lines 116-118). -/
def Image.rgba_data (img : Image) : List Nat := to_rgba img.data

/-- Translation of `Image::indexed_data()` accessor of `Image.h`: returns the
`_indexed_data` buffer. -/
def Image.indexed_data_acc (img : Image) : List Nat := img.indexed_data

/-- Effect of the fill loop of `Image::crop` (`Image.cpp` lines 127-129): the
fresh `crop_width * crop_height * 4` byte buffer holds the four channel bytes of
`transparent_color` repeated once per pixel. -/
def transparentFill (npixels : Nat) : List Nat :=
  (List.replicate npixels
    [channelByte transparent_color 0, channelByte transparent_color 1,
     channelByte transparent_color 2, channelByte transparent_color 3]).flatten

/-- Effect of one `std::memcpy(&dst[doff], &src[soff], len)`: bytes
`doff .. doff+len-1` of `d` are replaced by bytes `soff .. soff+len-1` of `s`. -/
def copyBytes (d s : List Nat) (doff soff : Nat) : Nat → List Nat
  | 0 => d
  | len + 1 => (copyBytes d s doff soff len).set (doff + len) (s.getD (soff + len) 0)

/-- Row loop of `Image::crop`: row `r` of the blit region is copied by
`memcpy` from source offset `soff0 + r*sstride` to destination offset
`r * dstride`, `bw` elements per row (`Image.cpp` lines 140-142 with
element size folded into the strides, and lines 146-148). -/
def copyRows (d s : List Nat) (dstride soff0 sstride bw : Nat) : Nat → List Nat
  | 0 => d
  | r + 1 => copyBytes (copyRows d s dstride soff0 sstride bw r) s (r * dstride) (soff0 + r * sstride) bw

/-- Translation of `Image::crop` (`Image.cpp` lines 120-151).  The result is a
`crop_width × crop_height` bitmap first filled with `transparent_color`,
carrying the source palette; if the origin lies outside the source
(`x > _width || y > _height`) only a zero index buffer is added when the source
is indexed; otherwise the `blit_width × blit_height` top-left region is copied
row by row from the source, for the RGBA bytes and, when present, the index
values. -/
def Image.crop (img : Image) (x y crop_width crop_height : Nat) : Image :=
  let fill := transparentFill (crop_width * crop_height)
  if x > img.width ∨ y > img.height then
    { width := crop_width, height := crop_height, data := fill,
      indexed_data := if img.indexed_data.length ≠ 0 then List.replicate (crop_width * crop_height) 0 else [],
      palette := img.palette }
  else
    let blit_width := if x + crop_width > img.width then img.width - x else crop_width
    let blit_height := if y + crop_height > img.height then img.height - y else crop_height
    { width := crop_width, height := crop_height,
      data := copyRows fill img.data (crop_width * 4) (x * 4 + y * img.width * 4)
        (img.width * 4) (blit_width * 4) blit_height,
      indexed_data := if img.indexed_data.length ≠ 0 then
          copyRows (List.replicate (crop_width * crop_height) 0) img.indexed_data
            crop_width (x + y * img.width) img.width blit_width blit_height
        else [],
      palette := img.palette }

/-- Cursor values visited by a loop `while (c < limit) { ...; c += step; }`,
given enough `fuel`; `fuel = limit` iterations always suffice when
`step ≥ 1`. -/
def whileCursor (limit step : Nat) : Nat → Nat → List Nat
  | 0, _ => []
  | fuel + 1, c => if c < limit then c :: whileCursor limit step fuel (c + step) else []

/-- Translation of `Image::crops` (`Image.cpp` lines 153-166): the outer loop
walks `y` from 0 while `y < _height` stepping by `tile_width` (the source steps
the row cursor by the tile WIDTH, not the height), the inner loop walks `x`
from 0 while `x < _width` stepping by `tile_width`, pushing
`crop(x, y, tile_width, tile_height)` at each position. -/
def Image.crops (img : Image) (tile_width tile_height : Nat) : List Image :=
  (whileCursor img.height tile_width img.height 0).flatMap fun y =>
    (whileCursor img.width tile_width img.width 0).map fun x =>
      img.crop x y tile_width tile_height

/-- Translation of `Image::rgba_crops` (`Image.cpp` lines 168-181): same double
loop as `crops`, pushing `crop(x, y, tile_width, tile_height).rgba_data()`. -/
def Image.rgba_crops (img : Image) (tile_width tile_height : Nat) : List (List Nat) :=
  (whileCursor img.height tile_width img.height 0).flatMap fun y =>
    (whileCursor img.width tile_width img.width 0).map fun x =>
      (img.crop x y tile_width tile_height).rgba_data

/-- Translation of `Image::indexed_crops` (`Image.cpp` lines 183-197): throws
"No indexed data in image" up front when `_indexed_data` is empty, else the
same double loop pushing `crop(...).indexed_data()`. -/
def Image.indexed_crops (img : Image) (tile_width tile_height : Nat) :
    Except SfcError (List (List Nat)) :=
  if img.indexed_data.length = 0 then .error .noIndexedData
  else .ok ((whileCursor img.height tile_width img.height 0).flatMap fun y =>
    (whileCursor img.width tile_width img.width 0).map fun x =>
      (img.crop x y tile_width tile_height).indexed_data_acc)

/-- Tile walk exactly as the specification sentence words it (§4.7): `x` from 0
by `tile_width` while `x < width`, and `y` from 0 by `tile_height` while
`y < height` — the row cursor advancing by the tile HEIGHT. Stated for
comparison with the translated `Image.crops`. -/
def cropsSpecWalk (img : Image) (tile_width tile_height : Nat) : List Image :=
  (whileCursor img.height tile_height img.height 0).flatMap fun y =>
    (whileCursor img.width tile_width img.width 0).map fun x =>
      img.crop x y tile_width tile_height

/-- Modelled from the spec: `sfc::div_ceil` of `Common.h` (used by the
tile-sheet constructor and §4.3 of the spec as "ceiling(a / b)"). -/
def div_ceil (n d : Nat) : Nat := (n + d - 1) / d

/-- Per-pixel loop of the re-quantize constructor `Image::Image(const Image&,
const sfc::Subpalette&)` (`Image.cpp` lines 99-113).  `rd`, `nm` and `rc` stand
for the external color-model functions `reduce_color(·, mode)`,
`normalize_color(·, mode)` and `rgba_color`; `index_t` values are kept as `Nat`
(the spec describes them only as palette-index values).  For each `i < size`:
reduce then normalize the source pixel color; on the transparent sentinel write
index 0 and the sentinel pixel, otherwise `std::find` the first palette match
and write it, or throw "Color not in palette". -/
def requantizeLoop (image : Image) (rd nm rc : Nat → Nat) (size : Nat)
    (i : Nat) (img : Image) : Except SfcError Image :=
  if i < size then
    let color := nm (rd (image.rgba_color_at i))
    if color = transparent_color then
      requantizeLoop image rd nm rc size (i + 1)
        (({ img with indexed_data := img.indexed_data.set i 0 }).set_pixel_at transparent_color i)
    else
      let palette_index := img.palette.findIdx (fun c => c == color)
      if palette_index < img.palette.length then
        requantizeLoop image rd nm rc size (i + 1)
          (({ img with indexed_data := img.indexed_data.set i palette_index }).set_pixel_at
            (rc (img.palette.getD palette_index 0)) i)
      else .error .colorNotInPalette
  else .ok img
termination_by size - i

/-- Translation of the re-quantize constructor `Image::Image(const Image&, const
sfc::Subpalette&)` (`Image.cpp` lines 88-114): copy the subpalette's normalized
colors as the palette (throwing "No colors" when empty), size the index buffer
to `width*height` and the byte buffer to `width*height*4` (zero-initialized by
`resize`), then run the per-pixel loop. -/
def requantize (image : Image) (pal : List Nat) (rd nm rc : Nat → Nat) :
    Except SfcError Image :=
  if pal = [] then .error .noColors
  else
    let size := image.width * image.height
    requantizeLoop image rd nm rc size 0
      { width := image.width, height := image.height,
        data := List.replicate (size * 4) 0,
        indexed_data := List.replicate size 0,
        palette := pal }

/-- Color types of the lodepng codec (`LodePNGColorType`). -/
inductive LCT where
  | GREY : LCT
  | RGB : LCT
  | PALETTE : LCT
  | GREY_ALPHA : LCT
  | RGBA : LCT
deriving Repr, DecidableEq

/-- Conversion decision of the decode constructor (`Image.cpp` lines 17-40),
as a function of the file's native color type and bit depth (after a decode
with `color_convert = false`, `state.info_raw` mirrors the PNG's stored color
mode, so line 19's check of `info_raw.colortype` sees the native type):
`needs_conversion` starts `false`, is set for a palette-indexed native type,
for an RGB / grey / grey+alpha native type, and for a native bit depth ≠ 8. -/
def decodeNeedsConversion (native_type : LCT) (native_bitdepth : Nat) : Bool :=
  let nc := false
  let nc := if native_type = LCT.PALETTE then true else nc
  let nc := if native_type = LCT.RGB ∨ native_type = LCT.GREY ∨ native_type = LCT.GREY_ALPHA
    then true else nc
  let nc := if native_bitdepth ≠ 8 then true else nc
  nc

/-- Pixel buffer kept by the decode constructor (`Image.cpp` lines 14, 42-47):
the output of the first, unconverted decode is used directly unless
`needs_conversion` was set, in which case it is discarded and the second,
8-bit-RGBA-converted decode's output becomes `_data`. -/
def decodeConstructorPixels (native_type : LCT) (native_bitdepth : Nat)
    (first_decode second_decode : List Nat) : List Nat :=
  if decodeNeedsConversion native_type native_bitdepth then second_decode else first_decode

/-- Conversion condition exactly as the specification sentence words it
(§4.1 step 3): "true if native type is RGB, grayscale, or grayscale+alpha
(non-RGBA, non-palette), OR if native bit depth ≠ 8".  Stated for comparison
with the translated `decodeNeedsConversion`. -/
def specNeedsConversion (native_type : LCT) (native_bitdepth : Nat) : Bool :=
  (native_type = LCT.RGB ∨ native_type = LCT.GREY ∨ native_type = LCT.GREY_ALPHA : Prop) ∨
    native_bitdepth ≠ 8

/-- Palette-table read loop of the decode constructor (`Image.cpp` lines 21-25):
entry `k` is packed from the RGBA quadruplet at bytes `4k .. 4k+3` of the
decoder's palette table, entries pushed in increasing order. -/
def buildPalette (table : List Nat) : Nat → List Nat
  | 0 => []
  | k + 1 => buildPalette table k ++
      [table.getD (4 * k) 0 + table.getD (4 * k + 1) 0 * 2 ^ 8 +
        table.getD (4 * k + 2) 0 * 2 ^ 16 + table.getD (4 * k + 3) 0 * 2 ^ 24]

/-- Modelled from the spec: result of the decode constructor on a
palette-indexed PNG (`Image.cpp` lines 19-28 with the codec boundary of spec
§6).  The codec's first decode of a palette PNG yields the raw index buffer
(one index per pixel, each below the palette size) which is captured as
`_indexed_data`; `_palette` is built from the decoder's palette table; the
second (forced) decode yields the canonical RGBA bytes. -/
def decodePaletteImage (w h : Nat) (index_buffer table : List Nat)
    (palettesize : Nat) (rgba_out : List Nat) : Image :=
  { width := w, height := h, data := rgba_out,
    indexed_data := index_buffer,
    palette := buildPalette table palettesize }

/-- Reduced-then-normalized color of source pixel `i` in the re-quantize
constructor: `normalize_color(reduce_color(image.rgba_color_at(i), mode), mode)`
with the external color-model functions abstracted as `rd` and `nm`. -/
def pixColor (image : Image) (rd nm : Nat → Nat) (i : Nat) : Nat :=
  nm (rd (image.rgba_color_at i))

/-- Property verified for claim C2: in a re-quantized bitmap, every pixel
whose reduced/normalized source color is the transparent sentinel has index 0
and the sentinel's channel bytes (whatever `palette[0]` is), and every other
pixel has a valid palette index with its RGBA bytes equal to the expansion of
the palette entry it indexes. -/
def C2Prop (image : Image) (rd nm rc : Nat → Nat) (out : Image) : Prop :=
  ∀ i, i < image.width * image.height →
    (pixColor image rd nm i = transparent_color →
       out.indexed_data.getD i 0 = 0 ∧
       ∀ b, b < 4 → out.data.getD (i * 4 + b) 0 = channelByte transparent_color b) ∧
    (pixColor image rd nm i ≠ transparent_color →
       out.indexed_data.getD i 0 < out.palette.length ∧
       ∀ b, b < 4 → out.data.getD (i * 4 + b) 0 =
         channelByte (rc (out.palette.getD (out.indexed_data.getD i 0) 0)) b)

/-- Property verified for claim C4: decoding a palette-indexed PNG yields an
index buffer of length `width*height` whose values all index the palette, and
a palette of length `N` whose entry `k` is packed from table quadruplet `k`. -/
def C4Prop (w h n : Nat) (index_buffer table rgba_out : List Nat) : Prop :=
  (decodePaletteImage w h index_buffer table n rgba_out).indexed_data.length = w * h ∧
  (decodePaletteImage w h index_buffer table n rgba_out).palette.length = n ∧
  (∀ v ∈ (decodePaletteImage w h index_buffer table n rgba_out).indexed_data,
     v < (decodePaletteImage w h index_buffer table n rgba_out).palette.length) ∧
  (∀ k, k < n → (decodePaletteImage w h index_buffer table n rgba_out).palette.getD k 0 =
     table.getD (4 * k) 0 + table.getD (4 * k + 1) 0 * 2 ^ 8 +
       table.getD (4 * k + 2) 0 * 2 ^ 16 + table.getD (4 * k + 3) 0 * 2 ^ 24)

/-- Property verified for claim C5: `crop` always returns a `cw × ch` bitmap
carrying the source palette; outside-origin requests give the all-transparent
buffer (with a zero-filled index buffer when the source is indexed); otherwise
the top-left `min(cw, width-x) × min(ch, height-y)` region is copied row by
row (RGBA bytes and, when present, index values) and every remaining cell
keeps the transparent fill / zero index. -/
def C5Prop (img : Image) (x y cw ch : Nat) : Prop :=
  (img.crop x y cw ch).width = cw ∧
  (img.crop x y cw ch).height = ch ∧
  (img.crop x y cw ch).palette = img.palette ∧
  (img.crop x y cw ch).data.length = cw * ch * 4 ∧
  ((x > img.width ∨ y > img.height) →
     (img.crop x y cw ch).data = transparentFill (cw * ch) ∧
     (img.crop x y cw ch).indexed_data =
       (if img.indexed_data.length ≠ 0 then List.replicate (cw * ch) 0 else [])) ∧
  (x ≤ img.width → y ≤ img.height →
     (∀ iy ix b, iy < ch → ix < cw → b < 4 →
        (img.crop x y cw ch).data.getD ((iy * cw + ix) * 4 + b) 0 =
          if iy < min ch (img.height - y) ∧ ix < min cw (img.width - x) then
            img.data.getD (((iy + y) * img.width + (x + ix)) * 4 + b) 0
          else channelByte transparent_color b) ∧
     (img.indexed_data.length = 0 → (img.crop x y cw ch).indexed_data = []) ∧
     (img.indexed_data.length ≠ 0 →
        (img.crop x y cw ch).indexed_data.length = cw * ch ∧
        ∀ iy ix, iy < ch → ix < cw →
          (img.crop x y cw ch).indexed_data.getD (iy * cw + ix) 0 =
            if iy < min ch (img.height - y) ∧ ix < min cw (img.width - x) then
              img.indexed_data.getD ((iy + y) * img.width + (x + ix)) 0
            else 0))

/-- Property verified for claim C6: under the re-quantize constructor, every
non-transparent source color found in the palette maps to the LOWEST palette
index holding it (with the pixel set to that entry's expansion), and a
non-transparent source color absent from the palette makes the whole
constructor fail with the color-not-in-palette error. -/
def C6Prop (image : Image) (pal : List Nat) (rd nm rc : Nat → Nat) : Prop :=
  (∀ out, requantize image pal rd nm rc = .ok out →
     ∀ i, i < image.width * image.height → pixColor image rd nm i ≠ transparent_color →
       ∃ pidx, pidx < pal.length ∧
         out.indexed_data.getD i 0 = pidx ∧
         pal.getD pidx 0 = pixColor image rd nm i ∧
         (∀ j, j < pidx → pal.getD j 0 ≠ pixColor image rd nm i) ∧
         (∀ b, b < 4 → out.data.getD (i * 4 + b) 0 = channelByte (rc (pal.getD pidx 0)) b)) ∧
  (pal ≠ [] →
     (∃ i, i < image.width * image.height ∧ pixColor image rd nm i ≠ transparent_color ∧
        pixColor image rd nm i ∉ pal) →
     requantize image pal rd nm rc = .error .colorNotInPalette)

/-- Property verified for claim C7: each `set_pixel` overload either writes all
four addressed channel bytes strictly inside the buffer (R at the lowest byte,
then G, B, A, every other byte untouched and the length unchanged) or, when
the computed byte offset would overflow the buffer, is a silent no-op. -/
def C7Prop (img : Image) (color index x y : Nat) : Prop :=
  (index * 4 + 3 > img.data.length → img.set_pixel_at color index = img) ∧
  (index * 4 + 3 ≤ img.data.length →
     index * 4 + 3 < img.data.length ∧
     (img.set_pixel_at color index).data.length = img.data.length ∧
     (∀ b, b < 4 → (img.set_pixel_at color index).data.getD (index * 4 + b) 0 = channelByte color b) ∧
     (∀ j, j < index * 4 ∨ index * 4 + 3 < j →
        (img.set_pixel_at color index).data.getD j 0 = img.data.getD j 0)) ∧
  ((y * img.width + x) * 4 + 3 > img.data.length → img.set_pixel_xy color x y = img) ∧
  ((y * img.width + x) * 4 + 3 ≤ img.data.length →
     (y * img.width + x) * 4 + 3 < img.data.length ∧
     (img.set_pixel_xy color x y).data.length = img.data.length ∧
     (∀ b, b < 4 →
        (img.set_pixel_xy color x y).data.getD ((y * img.width + x) * 4 + b) 0 = channelByte color b) ∧
     (∀ j, j < (y * img.width + x) * 4 ∨ (y * img.width + x) * 4 + 3 < j →
        (img.set_pixel_xy color x y).data.getD j 0 = img.data.getD j 0))

/-- Concrete 1×1 bitmap whose only pixel has packed color 5, used to run the
re-quantize constructor on a sample input. -/
def tinyImage : Image :=
  { width := 1, height := 1, data := [5, 0, 0, 0], indexed_data := [], palette := [] }

/-- Result of re-quantizing `tinyImage` against the palette `[7, 5]` with
identity color-model functions: the pixel matches palette index 1. -/
def tinyOut : Image :=
  { width := 1, height := 1, data := [5, 0, 0, 0], indexed_data := [1], palette := [7, 5] }

/-- Concrete 2×2 indexed bitmap used to instantiate hypothesis-bearing
theorems on a sample input. -/
def sampleImage : Image :=
  { width := 2, height := 2,
    data := [1, 2, 3, 4, 5, 6, 7, 8, 9, 10, 11, 12, 13, 14, 15, 16],
    indexed_data := [0, 1, 2, 3],
    palette := [100, 200, 300, 400] }

/-- Concrete 1×2 bitmap exercising the non-square tile walk of `crops`. -/
def tallImage : Image :=
  { width := 1, height := 2,
    data := [1, 2, 3, 4, 5, 6, 7, 8],
    indexed_data := [],
    palette := [] }

/-! Basic buffer lemmas. -/

theorem getD_set_zero (l : List Nat) (i j v : Nat) :
    (l.set i v).getD j 0 = if i = j ∧ j < l.length then v else l.getD j 0 := by
  by_cases hij : i = j
  · subst hij
    by_cases hi : i < l.length
    · simp [List.getD_eq_getElem?_getD, List.getElem?_set, hi]
    · simp [List.getD_eq_getElem?_getD, List.getElem?_set, hi,
        List.getElem?_eq_none (Nat.le_of_not_lt hi)]
  · simp [List.getD_eq_getElem?_getD, List.getElem?_set, hij]

theorem length_writeColorBytes (d : List Nat) (o c : Nat) :
    (writeColorBytes d o c).length = d.length := by
  simp [writeColorBytes]

theorem getD_writeColorBytes_outside (d : List Nat) (o c j : Nat)
    (h : j < o ∨ o + 3 < j) :
    (writeColorBytes d o c).getD j 0 = d.getD j 0 := by
  simp only [writeColorBytes]
  rw [getD_set_zero, getD_set_zero, getD_set_zero, getD_set_zero]
  simp only [List.length_set]
  have h0 : ¬(o = j ∧ j < d.length) := by omega
  have h1 : ¬(o + 1 = j ∧ j < d.length) := by omega
  have h2 : ¬(o + 2 = j ∧ j < d.length) := by omega
  have h3 : ¬(o + 3 = j ∧ j < d.length) := by omega
  rw [if_neg h3, if_neg h2, if_neg h1, if_neg h0]

theorem getD_writeColorBytes_at (d : List Nat) (o c b : Nat)
    (hb : b < 4) (hin : o + 3 < d.length) :
    (writeColorBytes d o c).getD (o + b) 0 = channelByte c b := by
  simp only [writeColorBytes]
  rw [getD_set_zero, getD_set_zero, getD_set_zero, getD_set_zero]
  simp only [List.length_set]
  interval_cases b
  · have h3 : ¬(o + 3 = o + 0 ∧ o + 0 < d.length) := by omega
    have h2 : ¬(o + 2 = o + 0 ∧ o + 0 < d.length) := by omega
    have h1 : ¬(o + 1 = o + 0 ∧ o + 0 < d.length) := by omega
    rw [if_neg h3, if_neg h2, if_neg h1, if_pos ⟨by omega, by omega⟩]
  · have h3 : ¬(o + 3 = o + 1 ∧ o + 1 < d.length) := by omega
    have h2 : ¬(o + 2 = o + 1 ∧ o + 1 < d.length) := by omega
    rw [if_neg h3, if_neg h2, if_pos ⟨by omega, by omega⟩]
  · have h3 : ¬(o + 3 = o + 2 ∧ o + 2 < d.length) := by omega
    rw [if_neg h3, if_pos ⟨by omega, by omega⟩]
  · rw [if_pos ⟨by omega, by omega⟩]

theorem length_copyBytes (d s : List Nat) (doff soff : Nat) :
    ∀ len, (copyBytes d s doff soff len).length = d.length := by
  intro len
  induction len with
  | zero => rfl
  | succ n ih => simp [copyBytes, ih]

theorem getD_copyBytes (d s : List Nat) (doff soff : Nat) :
    ∀ len j, (copyBytes d s doff soff len).getD j 0 =
      if doff ≤ j ∧ j < doff + len ∧ j < d.length then s.getD (soff + (j - doff)) 0
      else d.getD j 0 := by
  intro len
  induction len with
  | zero =>
    intro j
    rw [if_neg (by omega)]
    rfl
  | succ n ih =>
    intro j
    simp only [copyBytes]
    rw [getD_set_zero, length_copyBytes]
    by_cases hj : doff + n = j ∧ j < d.length
    · rw [if_pos hj, if_pos (by omega)]
      have : j - doff = n := by omega
      rw [this]
    · rw [if_neg hj, ih]
      by_cases hc : doff ≤ j ∧ j < doff + n ∧ j < d.length
      · rw [if_pos hc, if_pos (by omega)]
      · rw [if_neg hc, if_neg (by omega)]

theorem length_copyRows (d s : List Nat) (dstride soff0 sstride bw : Nat) :
    ∀ rows, (copyRows d s dstride soff0 sstride bw rows).length = d.length := by
  intro rows
  induction rows with
  | zero => rfl
  | succ r ih => simp [copyRows, length_copyBytes, ih]

theorem getD_copyRows (d s : List Nat) (dstride soff0 sstride bw : Nat)
    (hbw : bw ≤ dstride) :
    ∀ rows r t, t < dstride → r * dstride + t < d.length →
      (copyRows d s dstride soff0 sstride bw rows).getD (r * dstride + t) 0 =
        if r < rows ∧ t < bw then s.getD (soff0 + r * sstride + t) 0
        else d.getD (r * dstride + t) 0 := by
  intro rows
  induction rows with
  | zero =>
    intro r t ht hlen
    rw [if_neg (by omega)]
    rfl
  | succ n ih =>
    intro r t ht hlen
    simp only [copyRows]
    rw [getD_copyBytes, length_copyRows]
    by_cases hr : r = n
    · subst hr
      by_cases htb : t < bw
      · rw [if_pos ⟨by omega, by omega, hlen⟩, if_pos ⟨by omega, htb⟩]
        congr 1
        omega
      · rw [if_neg (by omega), ih r t ht hlen, if_neg (by omega), if_neg (by omega)]
    · have hsep : r < n ∨ n < r := by omega
      have hcond : ¬(n * dstride ≤ r * dstride + t ∧ r * dstride + t < n * dstride + bw ∧
          r * dstride + t < d.length) := by
        rcases hsep with hlt | hgt
        · have : r * dstride + dstride ≤ n * dstride := by
            have := Nat.mul_le_mul_right dstride (show r + 1 ≤ n by omega)
            simpa [Nat.succ_mul] using this
          omega
        · have : n * dstride + dstride ≤ r * dstride := by
            have := Nat.mul_le_mul_right dstride (show n + 1 ≤ r by omega)
            simpa [Nat.succ_mul] using this
          omega
      rw [if_neg hcond, ih r t ht hlen]
      by_cases hc : r < n ∧ t < bw
      · rw [if_pos hc, if_pos ⟨by omega, hc.2⟩]
      · rw [if_neg hc, if_neg (by omega)]

theorem channelByte_transparent (b : Nat) : channelByte transparent_color b = 0 := by
  simp [channelByte, transparent_color]

theorem transparentFill_eq (n : Nat) : transparentFill n = List.replicate (4 * n) 0 := by
  induction n with
  | zero => rfl
  | succ m ih =>
    rw [transparentFill, List.replicate_succ, List.flatten_cons]
    rw [transparentFill] at ih
    rw [ih, channelByte_transparent, channelByte_transparent, channelByte_transparent,
      channelByte_transparent]
    have h4 : 4 * (m + 1) = 4 + 4 * m := by ring
    rw [h4, List.replicate_add]
    rfl

theorem transparentFill_length (n : Nat) : (transparentFill n).length = 4 * n := by
  rw [transparentFill_eq, List.length_replicate]

theorem getD_transparentFill (n j : Nat) : (transparentFill n).getD j 0 = 0 := by
  rw [transparentFill_eq]
  rcases Nat.lt_or_ge j (4 * n) with h | h
  · simp [List.getD_eq_getElem?_getD, List.getElem?_replicate, h]
  · have hle : (List.replicate (4 * n) (0 : Nat)).length ≤ j := by simpa using h
    simp [List.getD_eq_getElem?_getD, List.getElem?_eq_none hle]

theorem getD_replicate_zero (n j : Nat) : (List.replicate n (0 : Nat)).getD j 0 = 0 := by
  rcases Nat.lt_or_ge j n with h | h
  · simp [List.getD_eq_getElem?_getD, List.getElem?_replicate, h]
  · have hle : (List.replicate n (0 : Nat)).length ≤ j := by simpa using h
    simp [List.getD_eq_getElem?_getD, List.getElem?_eq_none hle]

theorem div_ceil_zero (step : Nat) (hs : 1 ≤ step) : div_ceil 0 step = 0 := by
  simp only [div_ceil, Nat.zero_add]
  exact Nat.div_eq_of_lt (by omega)

theorem div_ceil_step (m step : Nat) (hs : 1 ≤ step) (hm : 1 ≤ m) :
    div_ceil m step = div_ceil (m - step) step + 1 := by
  by_cases hms : step ≤ m
  · have heq : m + step - 1 = (m - step + step - 1) + step := by omega
    simp only [div_ceil]
    rw [heq, Nat.add_div_right _ hs]
  · have h0 : m - step = 0 := by omega
    simp only [div_ceil, h0]
    rw [Nat.zero_add, Nat.div_eq_of_lt (by omega : step - 1 < step),
      Nat.div_eq_of_lt_le (by omega : 1 * step ≤ m + step - 1)
        (by omega : m + step - 1 < (1 + 1) * step)]

theorem whileCursor_length (limit step : Nat) (hs : 1 ≤ step) :
    ∀ fuel c, limit - c ≤ fuel →
      (whileCursor limit step fuel c).length = div_ceil (limit - c) step := by
  intro fuel
  induction fuel with
  | zero =>
    intro c hc
    have h0 : limit - c = 0 := by omega
    rw [whileCursor, h0, div_ceil_zero step hs]
    rfl
  | succ n ih =>
    intro c hc
    rw [whileCursor]
    by_cases h : c < limit
    · rw [if_pos h]
      simp only [List.length_cons]
      rw [ih (c + step) (by omega)]
      have heq : limit - (c + step) = limit - c - step := by omega
      rw [heq, ← div_ceil_step (limit - c) step hs (by omega)]
    · rw [if_neg h]
      have h0 : limit - c = 0 := by omega
      rw [h0, div_ceil_zero step hs]
      rfl

theorem length_flatMap_const {α β : Type} (l : List α) (f : α → List β) (m : Nat)
    (h : ∀ a ∈ l, (f a).length = m) : (l.flatMap f).length = l.length * m := by
  induction l with
  | nil => simp
  | cons a t ih =>
    rw [List.flatMap_cons, List.length_append, h a (by simp),
      ih (fun b hb => h b (by simp [hb])), List.length_cons]
    ring

theorem set_pixel_at_fields (img : Image) (c i : Nat) :
    (img.set_pixel_at c i).width = img.width ∧
    (img.set_pixel_at c i).height = img.height ∧
    (img.set_pixel_at c i).palette = img.palette ∧
    (img.set_pixel_at c i).indexed_data = img.indexed_data ∧
    (img.set_pixel_at c i).data.length = img.data.length := by
  unfold Image.set_pixel_at
  by_cases h : i * 4 + 3 > img.data.length
  · simp [h]
  · simp [h, length_writeColorBytes]

theorem set_pixel_xy_fields (img : Image) (c x y : Nat) :
    (img.set_pixel_xy c x y).width = img.width ∧
    (img.set_pixel_xy c x y).height = img.height ∧
    (img.set_pixel_xy c x y).palette = img.palette ∧
    (img.set_pixel_xy c x y).indexed_data = img.indexed_data ∧
    (img.set_pixel_xy c x y).data.length = img.data.length := by
  unfold Image.set_pixel_xy
  by_cases h : (y * img.width + x) * 4 + 3 > img.data.length
  · simp [h]
  · simp [h, length_writeColorBytes]

theorem set_pixel_at_write (img : Image) (c i : Nat) (hin : i * 4 + 3 < img.data.length) :
    (∀ b, b < 4 → (img.set_pixel_at c i).data.getD (i * 4 + b) 0 = channelByte c b) ∧
    (∀ j, j < i * 4 ∨ i * 4 + 3 < j → (img.set_pixel_at c i).data.getD j 0 = img.data.getD j 0) := by
  unfold Image.set_pixel_at
  rw [if_neg (by omega)]
  exact ⟨fun b hb => getD_writeColorBytes_at img.data (i * 4) c b hb hin,
    fun j hj => getD_writeColorBytes_outside img.data (i * 4) c j hj⟩

theorem set_pixel_xy_write (img : Image) (c x y : Nat)
    (hin : (y * img.width + x) * 4 + 3 < img.data.length) :
    (∀ b, b < 4 →
       (img.set_pixel_xy c x y).data.getD ((y * img.width + x) * 4 + b) 0 = channelByte c b) ∧
    (∀ j, j < (y * img.width + x) * 4 ∨ (y * img.width + x) * 4 + 3 < j →
       (img.set_pixel_xy c x y).data.getD j 0 = img.data.getD j 0) := by
  unfold Image.set_pixel_xy
  rw [if_neg (by omega)]
  exact ⟨fun b hb => getD_writeColorBytes_at _ _ _ b hb hin,
    fun j hj => getD_writeColorBytes_outside _ _ _ j hj⟩

theorem buildPalette_length (table : List Nat) : ∀ n, (buildPalette table n).length = n := by
  intro n
  induction n with
  | zero => rfl
  | succ k ih => simp [buildPalette, ih]

theorem getD_buildPalette (table : List Nat) :
    ∀ n k, k < n → (buildPalette table n).getD k 0 =
      table.getD (4 * k) 0 + table.getD (4 * k + 1) 0 * 2 ^ 8 +
        table.getD (4 * k + 2) 0 * 2 ^ 16 + table.getD (4 * k + 3) 0 * 2 ^ 24 := by
  intro n
  induction n with
  | zero => intro k hk; omega
  | succ m ih =>
    intro k hk
    rw [buildPalette]
    by_cases h : k < m
    · rw [List.getD_eq_getElem?_getD,
        List.getElem?_append_left (by rw [buildPalette_length]; exact h),
        ← List.getD_eq_getElem?_getD]
      exact ih k h
    · have hk' : k = m := by omega
      subst hk'
      rw [List.getD_eq_getElem?_getD,
        List.getElem?_append_right (by rw [buildPalette_length]),
        buildPalette_length]
      simp

theorem getD_eq_getElem_of_lt (l : List Nat) (i : Nat) (h : i < l.length) :
    l.getD i 0 = l[i] := by
  rw [List.getD_eq_getElem?_getD, List.getElem?_eq_getElem h]
  rfl

theorem requantize_write_fields (img : Image) (i v c : Nat) :
    (({ img with indexed_data := img.indexed_data.set i v }).set_pixel_at c i).palette = img.palette ∧
    (({ img with indexed_data := img.indexed_data.set i v }).set_pixel_at c i).width = img.width ∧
    (({ img with indexed_data := img.indexed_data.set i v }).set_pixel_at c i).height = img.height ∧
    (({ img with indexed_data := img.indexed_data.set i v }).set_pixel_at c i).data.length = img.data.length ∧
    (({ img with indexed_data := img.indexed_data.set i v }).set_pixel_at c i).indexed_data = img.indexed_data.set i v ∧
    (i * 4 + 3 < img.data.length →
       (∀ b, b < 4 →
          (({ img with indexed_data := img.indexed_data.set i v }).set_pixel_at c i).data.getD (i * 4 + b) 0 = channelByte c b) ∧
       (∀ j, j < i * 4 ∨ i * 4 + 3 < j →
          (({ img with indexed_data := img.indexed_data.set i v }).set_pixel_at c i).data.getD j 0 = img.data.getD j 0)) := by
  have hf := set_pixel_at_fields ({ img with indexed_data := img.indexed_data.set i v }) c i
  exact ⟨hf.2.2.1, hf.1, hf.2.1, hf.2.2.2.2, hf.2.2.2.1,
    fun hin => set_pixel_at_write _ c i hin⟩

theorem requantizeLoop_ok_spec (image : Image) (rd nm rc : Nat → Nat) (size : Nat)
    (pal : List Nat) :
    ∀ n i img out, size - i ≤ n → img.palette = pal → img.data.length = size * 4 →
      img.indexed_data.length = size →
      requantizeLoop image rd nm rc size i img = .ok out →
      out.palette = pal ∧ out.width = img.width ∧ out.height = img.height ∧
      out.data.length = size * 4 ∧ out.indexed_data.length = size ∧
      (∀ j, j < i → out.indexed_data.getD j 0 = img.indexed_data.getD j 0) ∧
      (∀ b, b < i * 4 → out.data.getD b 0 = img.data.getD b 0) ∧
      (∀ j, i ≤ j → j < size →
        (nm (rd (image.rgba_color_at j)) = transparent_color →
          out.indexed_data.getD j 0 = 0 ∧
          ∀ b, b < 4 → out.data.getD (j * 4 + b) 0 = channelByte transparent_color b) ∧
        (nm (rd (image.rgba_color_at j)) ≠ transparent_color →
          pal.findIdx (fun c => c == nm (rd (image.rgba_color_at j))) < pal.length ∧
          out.indexed_data.getD j 0 =
            pal.findIdx (fun c => c == nm (rd (image.rgba_color_at j))) ∧
          ∀ b, b < 4 → out.data.getD (j * 4 + b) 0 =
            channelByte (rc (pal.getD
              (pal.findIdx (fun c => c == nm (rd (image.rgba_color_at j)))) 0)) b)) := by
  intro n
  induction n with
  | zero =>
    intro i img out hn hpal hdlen hilen hrun
    rw [requantizeLoop, if_neg (by omega : ¬ i < size)] at hrun
    cases hrun
    exact ⟨hpal, rfl, rfl, hdlen, hilen, fun j _ => rfl, fun b _ => rfl,
      fun j hij hj => absurd hj (by omega)⟩
  | succ n ih =>
    intro i img out hn hpal hdlen hilen hrun
    by_cases hi : i < size
    · rw [requantizeLoop, if_pos hi] at hrun
      have hin : i * 4 + 3 < img.data.length := by omega
      by_cases hc : nm (rd (image.rgba_color_at i)) = transparent_color
      · rw [if_pos hc] at hrun
        have hw := requantize_write_fields img i 0 transparent_color
        obtain ⟨hwr, hun⟩ := hw.2.2.2.2.2 hin
        have hrec := ih (i + 1)
          (({ img with indexed_data := img.indexed_data.set i 0 }).set_pixel_at transparent_color i)
          out (by omega) (hw.1.trans hpal) (by rw [hw.2.2.2.1]; exact hdlen)
          (by rw [hw.2.2.2.2.1, List.length_set]; exact hilen) hrun
        obtain ⟨opal, owidth, oheight, odlen, oilen, oipres, odpres, ospec⟩ := hrec
        have hidximg : ∀ j, j < i + 1 →
            out.indexed_data.getD j 0 = (img.indexed_data.set i 0).getD j 0 := by
          intro j hj
          rw [oipres j hj, hw.2.2.2.2.1]
        have hdataimg : ∀ b, b < (i + 1) * 4 →
            out.data.getD b 0 =
              (({ img with indexed_data := img.indexed_data.set i 0 }).set_pixel_at
                transparent_color i).data.getD b 0 := odpres
        refine ⟨opal, owidth.trans hw.2.1, oheight.trans hw.2.2.1, odlen, oilen, ?_, ?_, ?_⟩
        · intro j hj
          rw [hidximg j (by omega), getD_set_zero, if_neg (by omega)]
        · intro b hb
          rw [hdataimg b (by omega), hun b (by omega)]
        · intro j hij hj
          by_cases hji : j = i
          · subst hji
            constructor
            · intro _
              constructor
              · rw [hidximg j (by omega), getD_set_zero, if_pos ⟨rfl, by omega⟩]
              · intro b hb
                rw [hdataimg (j * 4 + b) (by omega), hwr b hb]
            · intro hne
              exact absurd hc hne
          · exact ospec j (by omega) hj
      · by_cases hfound :
          (img.palette.findIdx fun c => c == nm (rd (image.rgba_color_at i))) < img.palette.length
        · rw [if_neg hc, if_pos hfound] at hrun
          have hw := requantize_write_fields img i
            (img.palette.findIdx fun c => c == nm (rd (image.rgba_color_at i)))
            (rc (img.palette.getD
              (img.palette.findIdx fun c => c == nm (rd (image.rgba_color_at i))) 0))
          obtain ⟨hwr, hun⟩ := hw.2.2.2.2.2 hin
          have hrec := ih (i + 1)
            (({ img with indexed_data := (img.indexed_data.set i
                (img.palette.findIdx fun c => c == nm (rd (image.rgba_color_at i)))) }).set_pixel_at
              (rc (img.palette.getD
                (img.palette.findIdx fun c => c == nm (rd (image.rgba_color_at i))) 0)) i)
            out (by omega) (hw.1.trans hpal) (by rw [hw.2.2.2.1]; exact hdlen)
            (by rw [hw.2.2.2.2.1, List.length_set]; exact hilen) hrun
          obtain ⟨opal, owidth, oheight, odlen, oilen, oipres, odpres, ospec⟩ := hrec
          have hidximg : ∀ j, j < i + 1 →
              out.indexed_data.getD j 0 =
                (img.indexed_data.set i
                  (img.palette.findIdx fun c => c == nm (rd (image.rgba_color_at i)))).getD j 0 := by
            intro j hj
            rw [oipres j hj, hw.2.2.2.2.1]
          refine ⟨opal, owidth.trans hw.2.1, oheight.trans hw.2.2.1, odlen, oilen, ?_, ?_, ?_⟩
          · intro j hj
            rw [hidximg j (by omega), getD_set_zero, if_neg (by omega)]
          · intro b hb
            rw [odpres b (by omega), hun b (by omega)]
          · intro j hij hj
            by_cases hji : j = i
            · subst hji
              constructor
              · intro ht
                exact absurd ht hc
              · intro _
                rw [hpal] at hfound
                refine ⟨hfound, ?_, ?_⟩
                · rw [hidximg j (by omega), getD_set_zero, if_pos ⟨rfl, by omega⟩, hpal]
                · intro b hb
                  rw [odpres (j * 4 + b) (by omega), hwr b hb, hpal]
            · exact ospec j (by omega) hj
        · rw [if_neg hc, if_neg hfound] at hrun
          cases hrun
    · rw [requantizeLoop, if_neg hi] at hrun
      cases hrun
      exact ⟨hpal, rfl, rfl, hdlen, hilen, fun j _ => rfl, fun b _ => rfl,
        fun j hij hj => absurd hj (by omega)⟩

theorem requantizeLoop_err (image : Image) (rd nm rc : Nat → Nat) (size : Nat)
    (pal : List Nat) :
    ∀ n i img, size - i ≤ n → img.palette = pal →
      (∃ j, i ≤ j ∧ j < size ∧ nm (rd (image.rgba_color_at j)) ≠ transparent_color ∧
         nm (rd (image.rgba_color_at j)) ∉ pal) →
      requantizeLoop image rd nm rc size i img = .error .colorNotInPalette := by
  intro n
  induction n with
  | zero =>
    intro i img hn hpal hex
    obtain ⟨j, hij, hj, _, _⟩ := hex
    omega
  | succ n ih =>
    intro i img hn hpal hex
    by_cases hi : i < size
    · rw [requantizeLoop, if_pos hi]
      by_cases hc : nm (rd (image.rgba_color_at i)) = transparent_color
      · rw [if_pos hc]
        obtain ⟨j, hij, hj, hjn, hjm⟩ := hex
        have hjne : j ≠ i := fun he => hjn (he ▸ hc)
        exact ih (i + 1) _ (by omega)
          ((requantize_write_fields img i 0 transparent_color).1.trans hpal)
          ⟨j, by omega, hj, hjn, hjm⟩
      · by_cases hfound :
          (img.palette.findIdx fun c => c == nm (rd (image.rgba_color_at i))) < img.palette.length
        · rw [if_neg hc, if_pos hfound]
          obtain ⟨j, hij, hj, hjn, hjm⟩ := hex
          have hjne : j ≠ i := by
            intro he
            subst he
            rw [hpal] at hfound
            obtain ⟨xx, hxmem, hxeq⟩ := List.findIdx_lt_length.mp hfound
            exact hjm (eq_of_beq hxeq ▸ hxmem)
          exact ih (i + 1) _ (by omega)
            ((requantize_write_fields img i _ _).1.trans hpal)
            ⟨j, by omega, hj, hjn, hjm⟩
        · rw [if_neg hc, if_neg hfound]
    · obtain ⟨j, hij, hj, _, _⟩ := hex
      omega

/-! Claim theorems. -/

/-- C3, counterexample: the claim's conversion condition (spec §4.1 step 3,
excluding the palette-indexed type) disagrees with the code at a
palette-indexed PNG of native bit depth 8 — the code performs the second
decode there (`Image.cpp` line 26 sets `needs_conversion` for `LCT_PALETTE`),
while the claimed condition is false. -/
theorem C3_counterexample :
    decodeNeedsConversion LCT.PALETTE 8 = true ∧ specNeedsConversion LCT.PALETTE 8 = false := by
  constructor
  · rfl
  · rfl

/-- C3 (amended): the second decode is performed if and only if the native
color type is RGB, grayscale, grayscale+alpha, OR palette-indexed, or the
native bit depth is not 8 — equivalently, exactly the 8-bit RGBA files skip it
— and the pixel buffer kept by the constructor is the first decode's output
exactly in that remaining case, the second decode's output otherwise. -/
theorem C3_needs_conversion (ct : LCT) (bd : Nat) (first_decode second_decode : List Nat) :
    (decodeNeedsConversion ct bd = true ↔ (ct = LCT.RGB ∨ ct = LCT.GREY ∨ ct = LCT.GREY_ALPHA ∨ ct = LCT.PALETTE ∨ bd ≠ 8)) ∧
    (decodeNeedsConversion ct bd = false ↔ (ct = LCT.RGBA ∧ bd = 8)) ∧
    decodeConstructorPixels ct bd first_decode second_decode =
      if ct = LCT.RGBA ∧ bd = 8 then first_decode else second_decode := by
  refine ⟨?_, ?_, ?_⟩
  · cases ct <;> by_cases h : bd = 8 <;> simp [decodeNeedsConversion, h]
  · cases ct <;> by_cases h : bd = 8 <;> simp [decodeNeedsConversion, h]
  · cases ct <;> by_cases h : bd = 8 <;>
      simp [decodeConstructorPixels, decodeNeedsConversion, h]

/-- C8: `blit` leaves the index buffer, the palette and the dimensions of the
bitmap completely unchanged (and preserves the byte-buffer length): it only
rewrites RGBA bytes, even on a bitmap carrying indexed data. -/
theorem C8_blit_preserves (img : Image) (rgba : List Nat) (x y w : Nat) :
    (img.blit rgba x y w).indexed_data = img.indexed_data ∧
    (img.blit rgba x y w).palette = img.palette ∧
    (img.blit rgba x y w).width = img.width ∧
    (img.blit rgba x y w).height = img.height ∧
    (img.blit rgba x y w).data.length = img.data.length := by
  have key : ∀ (idxs : List Nat) (im : Image),
      ((idxs.foldl (fun acc i => acc.set_pixel_xy (rgba.getD i 0) (i % w + x) (i / w + y)) im).indexed_data = im.indexed_data) ∧
      ((idxs.foldl (fun acc i => acc.set_pixel_xy (rgba.getD i 0) (i % w + x) (i / w + y)) im).palette = im.palette) ∧
      ((idxs.foldl (fun acc i => acc.set_pixel_xy (rgba.getD i 0) (i % w + x) (i / w + y)) im).width = im.width) ∧
      ((idxs.foldl (fun acc i => acc.set_pixel_xy (rgba.getD i 0) (i % w + x) (i / w + y)) im).height = im.height) ∧
      ((idxs.foldl (fun acc i => acc.set_pixel_xy (rgba.getD i 0) (i % w + x) (i / w + y)) im).data.length = im.data.length) := by
    intro idxs
    induction idxs with
    | nil => intro im; exact ⟨rfl, rfl, rfl, rfl, rfl⟩
    | cons a t ih =>
      intro im
      have hstep := set_pixel_xy_fields im (rgba.getD a 0) (a % w + x) (a / w + y)
      have hrec := ih (im.set_pixel_xy (rgba.getD a 0) (a % w + x) (a / w + y))
      simp only [List.foldl_cons]
      exact ⟨hrec.1.trans hstep.2.2.2.1, hrec.2.1.trans hstep.2.2.1,
        hrec.2.2.1.trans hstep.1, hrec.2.2.2.1.trans hstep.2.1,
        hrec.2.2.2.2.trans hstep.2.2.2.2⟩
  exact key (List.range rgba.length) img

/-- C9: `indexed_crops` fails with the no-indexed-data error exactly when the
bitmap carries no index buffer (failing up front, before any tile is
produced), while `crops` and `rgba_crops` are total on the same bitmap —
`rgba_crops` always equals `crops` post-composed with `rgba_data`. -/
theorem C9_indexed_crops_error (img : Image) (tw th : Nat) :
    (img.indexed_crops tw th = .error .noIndexedData ↔ img.indexed_data = []) ∧
    img.rgba_crops tw th = (img.crops tw th).map Image.rgba_data := by
  constructor
  · unfold Image.indexed_crops
    by_cases h : img.indexed_data.length = 0
    · simp [h, List.length_eq_zero.mp h]
    · rw [if_neg h]
      constructor
      · intro hc; cases hc
      · intro hnil; exact absurd (by simp [hnil]) h
  · unfold Image.rgba_crops Image.crops
    rw [List.map_flatMap]
    refine List.flatMap_congr ?_
    intro y _
    rw [List.map_map]
    rfl

/-- C10: for every tile width ≥ 1 the tile loop of `crops` terminates and
yields exactly `ceil(width / tile_width) * ceil(height / tile_width)` tiles —
for any tile height, which never enters the loop control — while with
`tile_width = 0` on a bitmap of nonzero width the inner cursor never advances
and the loop never exits (it consumes any amount of fuel). -/
theorem C10_crops_count (img : Image) (tw th : Nat) (h : 1 ≤ tw) :
    (img.crops tw th).length = div_ceil img.width tw * div_ceil img.height tw ∧
    (1 ≤ img.width → ∀ fuel, (whileCursor img.width 0 fuel 0).length = fuel) := by
  constructor
  · unfold Image.crops
    rw [length_flatMap_const _ _ (div_ceil img.width tw) ?_]
    · rw [whileCursor_length img.height tw h img.height 0 (by omega), Nat.sub_zero]
      ring
    · intro a _
      rw [List.length_map, whileCursor_length img.width tw h img.width 0 (by omega),
        Nat.sub_zero]
  · intro hw fuel
    induction fuel with
    | zero => rfl
    | succ n ih =>
      rw [whileCursor, if_pos (by omega)]
      simp [ih]

/-- C1, code evaluation at the failing input: on a 1×2 bitmap with
`tile_width = 1` and `tile_height = 2` the translated `crops` emits two tiles
(its row cursor advances by the tile WIDTH, `Image.cpp` line 163 `y +=
tile_width`), whereas the walk the claim describes — the row cursor advancing
by the tile HEIGHT — emits exactly one. -/
theorem C1_row_step_eval :
    (tallImage.crops 1 2).length = 2 ∧ (cropsSpecWalk tallImage 1 2).length = 1 := by
  constructor
  · rfl
  · rfl

/-- C7: on a bitmap whose buffer length is `width*height*4`, each `set_pixel`
overload either writes exactly the four addressed channel bytes, all strictly
inside the buffer, or — when the computed byte offset would overflow the
buffer — silently writes nothing at all. -/
theorem C7_set_pixel (img : Image) (color index x y : Nat)
    (hlen : img.data.length = img.width * img.height * 4) : C7Prop img color index x y := by
  obtain ⟨m, hm⟩ : 4 ∣ img.data.length := ⟨img.width * img.height, by rw [hlen]; ring⟩
  refine ⟨?_, ?_, ?_, ?_⟩
  · intro h
    unfold Image.set_pixel_at
    rw [if_pos h]
  · intro h
    have hlt : index * 4 + 3 < img.data.length := by omega
    exact ⟨hlt, (set_pixel_at_fields img color index).2.2.2.2,
      (set_pixel_at_write img color index hlt).1, (set_pixel_at_write img color index hlt).2⟩
  · intro h
    unfold Image.set_pixel_xy
    rw [if_pos h]
  · intro h
    have hq : ∀ q : Nat, q * 4 + 3 ≤ img.data.length → q * 4 + 3 < img.data.length := by
      intro q hqle
      omega
    have hlt : (y * img.width + x) * 4 + 3 < img.data.length := hq (y * img.width + x) h
    exact ⟨hlt, (set_pixel_xy_fields img color x y).2.2.2.2,
      (set_pixel_xy_write img color x y hlt).1, (set_pixel_xy_write img color x y hlt).2⟩

/-- C7, witness at a concrete bitmap, color and addresses. -/
theorem C7_set_pixel_witness : C7Prop sampleImage 999 1 0 1 :=
  C7_set_pixel sampleImage 999 1 0 1 (by decide)

/-- C4: for an accepted palette-indexed PNG with `N` palette entries, the
bitmap's index buffer has length `width*height` with every value a valid
palette index, and the palette has length `N` with entry `k` packed from the
decoder table's quadruplet `k` as `R | G<<8 | B<<16 | A<<24`. -/
theorem C4_decode_palette (w h n : Nat) (index_buffer table rgba_out : List Nat)
    (hlen : index_buffer.length = w * h) (hval : ∀ v ∈ index_buffer, v < n) :
    C4Prop w h n index_buffer table rgba_out := by
  dsimp only [C4Prop, decodePaletteImage]
  refine ⟨hlen, buildPalette_length table n, ?_, ?_⟩
  · intro v hv
    rw [buildPalette_length]
    exact hval v hv
  · intro k hk
    exact getD_buildPalette table n k hk

/-- C4, witness: a 1×2 palette PNG with two palette entries. -/
theorem C4_decode_palette_witness : C4Prop 1 2 2 [0, 1] [1, 2, 3, 4, 5, 6, 7, 8] [] :=
  C4_decode_palette 1 2 2 [0, 1] [1, 2, 3, 4, 5, 6, 7, 8] [] (by decide) (by decide)

/-- C10, witness at a concrete bitmap and 8×8 tiles. -/
theorem C10_crops_count_witness :
    (sampleImage.crops 8 8).length = div_ceil sampleImage.width 8 * div_ceil sampleImage.height 8 ∧
    (1 ≤ sampleImage.width → ∀ fuel, (whileCursor sampleImage.width 0 fuel 0).length = fuel) :=
  C10_crops_count sampleImage 8 8 (by decide)

/-- C5: `crop` never fails and always returns an exactly `cw × ch` bitmap
initialized to the transparent sentinel, copying the source palette; origins
beyond the source leave it all-transparent (plus a zero index buffer when the
source is indexed), and otherwise the `min(cw, width-x) × min(ch, height-y)`
top-left region is copied row by row, everything else staying
transparent/zero. -/
theorem C5_crop (img : Image) (x y cw ch : Nat) : C5Prop img x y cw ch := by
  unfold C5Prop Image.crop
  by_cases hout : x > img.width ∨ y > img.height
  · simp only [if_pos hout]
    refine ⟨by trivial, by trivial, by trivial, ?_, fun _ => ⟨by trivial, by trivial⟩, ?_⟩
    · rw [transparentFill_length]
      ring
    · intro hx hy
      exact absurd hout (by omega)
  · simp only [if_neg hout]
    have hx : x ≤ img.width := by omega
    have hy : y ≤ img.height := by omega
    set bw := if x + cw > img.width then img.width - x else cw with hbw
    set bh := if y + ch > img.height then img.height - y else ch with hbh
    have hbwmin : bw = min cw (img.width - x) := by
      rw [hbw]
      by_cases hc : x + cw > img.width
      · rw [if_pos hc]; omega
      · rw [if_neg hc]; omega
    have hbhmin : bh = min ch (img.height - y) := by
      rw [hbh]
      by_cases hc : y + ch > img.height
      · rw [if_pos hc]; omega
      · rw [if_neg hc]; omega
    have hbwcw : bw ≤ cw := by omega
    refine ⟨by trivial, by trivial, by trivial, ?_, ?_, ?_⟩
    · rw [length_copyRows, transparentFill_length]
      ring
    · intro hcontra
      exact absurd hcontra (by omega)
    · intro hx2 hy2
      refine ⟨?_, ?_, ?_⟩
      · intro iy ix b hiy hix hb
        have hpos : (iy * cw + ix) * 4 + b = iy * (cw * 4) + (ix * 4 + b) := by ring
        rw [hpos]
        have ht : ix * 4 + b < cw * 4 := by omega
        have hlen : iy * (cw * 4) + (ix * 4 + b) < (transparentFill (cw * ch)).length := by
          rw [transparentFill_length]
          have h1 : iy * (cw * 4) + (cw * 4) ≤ ch * (cw * 4) := by
            have := Nat.mul_le_mul_right (cw * 4) (show iy + 1 ≤ ch by omega)
            simpa [Nat.succ_mul] using this
          have h2 : ch * (cw * 4) = 4 * (cw * ch) := by ring
          omega
        rw [getD_copyRows (transparentFill (cw * ch)) img.data (cw * 4)
          (x * 4 + y * img.width * 4) (img.width * 4) (bw * 4) (by omega) bh iy
          (ix * 4 + b) ht hlen]
        by_cases hcond : iy < min ch (img.height - y) ∧ ix < min cw (img.width - x)
        · rw [if_pos (show iy < bh ∧ ix * 4 + b < bw * 4 by omega), if_pos hcond]
          congr 1
          ring
        · rw [if_neg (show ¬(iy < bh ∧ ix * 4 + b < bw * 4) by omega), if_neg hcond,
            getD_transparentFill, channelByte_transparent]
      · intro h0
        rw [if_neg (show ¬img.indexed_data.length ≠ 0 by omega)]
      · intro hnz
        rw [if_pos hnz]
        constructor
        · rw [length_copyRows, List.length_replicate]
        · intro iy ix hiy hix
          have hlen2 : iy * cw + ix < (List.replicate (cw * ch) (0 : Nat)).length := by
            rw [List.length_replicate]
            have h1 : iy * cw + cw ≤ ch * cw := by
              have := Nat.mul_le_mul_right cw (show iy + 1 ≤ ch by omega)
              simpa [Nat.succ_mul] using this
            have h2 : ch * cw = cw * ch := by ring
            omega
          rw [getD_copyRows (List.replicate (cw * ch) 0) img.indexed_data cw
            (x + y * img.width) img.width bw hbwcw bh iy ix hix hlen2]
          by_cases hcond : iy < min ch (img.height - y) ∧ ix < min cw (img.width - x)
          · rw [if_pos (show iy < bh ∧ ix < bw by omega), if_pos hcond]
            congr 1
            ring
          · rw [if_neg (show ¬(iy < bh ∧ ix < bw) by omega), if_neg hcond,
              getD_replicate_zero]

/-- C5, witness at a concrete bitmap and an overhanging crop request. -/
theorem C5_crop_witness : C5Prop sampleImage 1 0 2 2 :=
  C5_crop sampleImage 1 0 2 2

/-- C2: every pixel of a bitmap produced by the re-quantize constructor either
came from a source color reducing to the transparent sentinel — then its index
is 0 and its bytes are the sentinel's, whatever `palette[0]` holds — or
carries a valid palette index with its RGBA bytes equal to the expansion of
the palette entry it indexes. -/
theorem C2_requantize (image : Image) (pal : List Nat) (rd nm rc : Nat → Nat) (out : Image)
    (h : requantize image pal rd nm rc = .ok out) : C2Prop image rd nm rc out := by
  unfold requantize at h
  by_cases hpal : pal = []
  · rw [if_pos hpal] at h
    cases h
  · rw [if_neg hpal] at h
    have hspec := requantizeLoop_ok_spec image rd nm rc (image.width * image.height) pal
      (image.width * image.height) 0
      { width := image.width, height := image.height,
        data := List.replicate (image.width * image.height * 4) 0,
        indexed_data := List.replicate (image.width * image.height) 0,
        palette := pal } out (by omega) rfl (by simp) (by simp) h
    obtain ⟨opal, _, _, _, _, _, _, ospec⟩ := hspec
    intro i hi
    have hsp := ospec i (by omega) hi
    constructor
    · intro ht
      exact hsp.1 ht
    · intro hne
      obtain ⟨hlt, hidx, hbytes⟩ := hsp.2 hne
      constructor
      · rw [hidx, opal]
        exact hlt
      · intro b hb
        rw [hidx, opal]
        exact hbytes b hb

/-- C2, witness: re-quantizing a concrete 1×1 bitmap against the palette
`[7, 5]` with identity color-model functions. -/
theorem C2_requantize_witness : C2Prop tinyImage id id id tinyOut := by
  apply C2_requantize tinyImage [7, 5] id id id tinyOut
  unfold requantize
  rw [if_neg (by decide : ¬([7, 5] : List Nat) = [])]
  rw [requantizeLoop, if_pos (by decide : 0 < tinyImage.width * tinyImage.height),
    if_neg (by decide : ¬id (id (tinyImage.rgba_color_at 0)) = transparent_color)]
  rw [if_pos (by decide)]
  rw [requantizeLoop, if_neg (by decide : ¬0 + 1 < tinyImage.width * tinyImage.height)]
  rfl

/-- C6: in the re-quantize constructor a non-transparent reduced color found
in the palette maps to the lowest palette index holding it, with the pixel set
to that entry's expansion; a non-transparent reduced color absent from the
palette aborts the whole construction with the color-not-in-palette error. -/
theorem C6_requantize (image : Image) (pal : List Nat) (rd nm rc : Nat → Nat) :
    C6Prop image pal rd nm rc := by
  constructor
  · intro out hok i hi hne
    simp only [pixColor] at hne ⊢
    unfold requantize at hok
    by_cases hpal : pal = []
    · rw [if_pos hpal] at hok
      cases hok
    · rw [if_neg hpal] at hok
      have hspec := requantizeLoop_ok_spec image rd nm rc (image.width * image.height) pal
        (image.width * image.height) 0
        { width := image.width, height := image.height,
          data := List.replicate (image.width * image.height * 4) 0,
          indexed_data := List.replicate (image.width * image.height) 0,
          palette := pal } out (by omega) rfl (by simp) (by simp) hok
      obtain ⟨opal, _, _, _, _, _, _, ospec⟩ := hspec
      obtain ⟨hlt, hidx, hbytes⟩ := (ospec i (by omega) hi).2 hne
      refine ⟨pal.findIdx (fun c => c == nm (rd (image.rgba_color_at i))), hlt, hidx, ?_, ?_, hbytes⟩
      · rw [getD_eq_getElem_of_lt pal _ hlt]
        exact eq_of_beq
          (@List.findIdx_getElem _ (fun c => c == nm (rd (image.rgba_color_at i))) pal hlt)
      · intro j hj heq
        have hjl : j < pal.length := by omega
        have hfalse := List.not_of_lt_findIdx hj
        rw [getD_eq_getElem_of_lt pal j hjl] at heq
        rw [heq] at hfalse
        simp at hfalse
  · intro hpal hex
    unfold requantize
    rw [if_neg hpal]
    obtain ⟨i, hi, hne, hnm⟩ := hex
    exact requantizeLoop_err image rd nm rc (image.width * image.height) pal
      (image.width * image.height) 0 _ (by omega) rfl ⟨i, by omega, hi, hne, hnm⟩

/-- C6, witness at a concrete 1×1 bitmap, palette and identity color model. -/
theorem C6_requantize_witness : C6Prop tinyImage [7, 5] id id id :=
  C6_requantize tinyImage [7, 5] id id id

end sfc
